import Mathlib

/-!
Verification development for the TMX data-exploration script
(src/data-exploration.py).  The Python source is shallowly embedded:
XML elements become a tree type, the streaming iterparse loop becomes a
recursion over the element's start/end event list, Python floats become
rationals, and print statements become values of an explicit output
type.  A Python ZeroDivisionError is modelled by an explicit error
constructor on the function's return type.
-/

/-- Translation pair as produced by the loader: (en_text, fr_text). -/
abbrev TranslationPair := String × String

/-- Whitespace test used to model Python str.strip and str.split. -/
def isSpace (c : Char) : Bool := c.isWhitespace

/-- Strip leading and trailing whitespace from a character list. -/
def trimChars (l : List Char) : List Char :=
  ((l.dropWhile isSpace).reverse.dropWhile isSpace).reverse

/-- Python str.strip with no arguments. -/
def pyStrip (s : String) : String := String.mk (trimChars s.toList)

/-- Python slicing s up to n characters. -/
def pyTake (s : String) (n : Nat) : String := String.mk (s.toList.take n)

/-- Python len of a string, in characters. -/
def pyLen (s : String) : Nat := s.toList.length

/-- Python str.lower, modelled per character. -/
def pyLower (s : String) : String := String.mk (s.toList.map Char.toLower)

/-- Split a character list at every character satisfying p, keeping
empty groups, as Python re or str splitting does before filtering. -/
def splitChars (p : Char → Bool) : List Char → List (List Char)
  | [] => [[]]
  | c :: cs =>
    match splitChars p cs with
    | [] => if p c then [[], []] else [[c]]
    | g :: gs => if p c then [] :: g :: gs else (c :: g) :: gs

/-- Python str.split with no arguments: split on whitespace runs and
drop empty pieces. -/
def pySplit (s : String) : List String :=
  ((splitChars isSpace s.toList).map String.mk).filter (fun t => t ≠ "")

/-- Local part of a possibly namespace-qualified tag, mirroring line 46
of the source: the piece after the last closing brace when the tag
contains one, else the whole tag. -/
def localName (t : String) : String :=
  if t.toList.contains '\x7d' then
    String.mk ((t.toList.reverse.takeWhile (fun c => c ≠ '\x7d')).reverse)
  else t

mutual
/-- XML element tree: tag, attributes, direct text, children, tail text.
This models xml.etree.ElementTree.Element as the script uses it.  The
children live in the companion list type so that the recursive
functions over the tree are structural and compute inside the kernel. -/
inductive Elem : Type where
  | mk : String → List (String × String) → Option String → ElemList → Option String → Elem

/-- List of sibling elements, as a mutual inductive with Elem. -/
inductive ElemList : Type where
  | nil : ElemList
  | cons : Elem → ElemList → ElemList
end

/-- Tag of an element. -/
def Elem.tag : Elem → String
  | .mk t _ _ _ _ => t

/-- Attribute list of an element. -/
def Elem.attrs : Elem → List (String × String)
  | .mk _ a _ _ _ => a

/-- Direct text of an element (Element.text, may be None). -/
def Elem.text : Elem → Option String
  | .mk _ _ tx _ _ => tx

/-- Children of an element. -/
def Elem.children : Elem → ElemList
  | .mk _ _ _ ch _ => ch

/-- Tail text of an element (Element.tail, may be None). -/
def Elem.tail : Elem → Option String
  | .mk _ _ _ _ tl => tl

/-- Build an element list from an ordinary list. -/
def elemsOf : List Elem → ElemList
  | [] => ElemList.nil
  | e :: es => ElemList.cons e (elemsOf es)

/-- Whether an element list is empty, modelling the length-based
truthiness of an ElementTree Element. -/
def ElemList.isEmptyE : ElemList → Bool
  | .nil => true
  | .cons _ _ => false

/-- First element of the list satisfying the test. -/
def ElemList.findE : (Elem → Bool) → ElemList → Option Elem
  | _, .nil => none
  | p, .cons e es => if p e then some e else ElemList.findE p es

/-- Tail texts of the elements of a list, missing tails as empty
strings, as the join at line 31 of the source reads them. -/
def childTails : ElemList → List String
  | .nil => []
  | .cons e es => (e.tail.getD "") :: childTails es

/-- Element attribute lookup, Element.get with a None result when the
key is absent. -/
def attrGet (e : Elem) (k : String) : Option String :=
  (e.attrs.find? (fun p => p.1 = k)).map (fun p => p.2)

/-- Language attribute of a tuv element, mirroring the source: the
namespace-qualified xml lang attribute first, then the bare lang
attribute, defaulting to the empty string. -/
def langOf (e : Elem) : String :=
  (attrGet e "\x7bhttp://www.w3.org/XML/1998/namespace\x7dlang").getD
    ((attrGet e "lang").getD "")

/-- First element, in document order, among a list of elements and all
their descendants, whose local tag name is seg.  This models
Element.find with the descendant pattern and namespace wildcard used at
line 29 of the source. -/
def findSegList : ElemList → Option Elem
  | .nil => none
  | .cons (Elem.mk t a tx ch tl) es =>
    if localName t = "seg" then some (Elem.mk t a tx ch tl)
    else
      match findSegList ch with
      | some s => some s
      | none => findSegList es

/-- First direct child whose tag is literally seg (no namespace),
modelling Element.find with the plain path seg. -/
def findChildSeg (e : Elem) : Option Elem :=
  ElemList.findE (fun c => c.tag = "seg") e.children

/-- The seg lookup of the source, line 29: the descendant search is
combined with the direct-child search by the Python or operator.  An
ElementTree Element is falsy when it has no child elements, so a found
segment with no children falls through to the second lookup.  This
models the behaviour of CPython up to 3.13, where Element truth testing
is length based. -/
def pyFindOr (e : Elem) : Option Elem :=
  match findSegList e.children with
  | some s => if s.children.isEmptyE then findChildSeg e else some s
  | none => findChildSeg e

/-- Segment text extraction from a tuv element, mirroring the body of
the source function: the segment's direct text (or empty) concatenated
with the tail texts of its children, stripped; empty when the seg
lookup produced nothing. -/
def get_seg_text (e : Elem) : String :=
  match pyFindOr e with
  | some s => pyStrip ((s.text.getD "") ++ String.join (childTails s.children))
  | none => ""

/-- Segment extractor as the specification words it (section 4.1):
locate the contained segment node by local name ignoring namespace,
return its stripped direct text plus child tails, empty only when no
segment node exists.  Written from the spec for comparison with the
source-derived get_seg_text. -/
def seg_text_of_spec (e : Elem) : String :=
  match findSegList e.children with
  | some s => pyStrip ((s.text.getD "") ++ String.join (childTails s.children))
  | none => ""

/-- One iterparse event: a start event carries the tag (the only field
the source reads on start), an end event carries the completed element. -/
inductive Event : Type where
  | startTag : String → Event
  | endElem : Elem → Event

/-- Local tag name of an event, as computed at line 46 of the source. -/
def evLocal : Event → String
  | .startTag t => localName t
  | .endElem e => localName e.tag

mutual
/-- Start/end event stream of an element subtree, in document order,
modelling iterparse with start and end events. -/
def eventsOf : Elem → List Event
  | Elem.mk t a tx ch tl =>
    Event.startTag t :: (eventsOfList ch ++ [Event.endElem (Elem.mk t a tx ch tl)])

/-- Event stream of a list of sibling elements. -/
def eventsOfList : ElemList → List Event
  | .nil => []
  | .cons e es => eventsOf e ++ eventsOfList es
end

/-- The iterparse loop of load_tmx_subset_robust, lines 45 to 71 of the
source.  State: remaining events, the in_tu flag, the two language
slots, and the accumulated pair list.  On a tu end event with both
slots set the pair is appended and the loop breaks when the new length
has reached max_tu; the break test runs only after an append, exactly
as in the source. -/
def loadLoop (max_tu : Nat) :
    List Event → Bool → Option String → Option String →
    List TranslationPair → List TranslationPair
  | [], _, _, _, pairs => pairs
  | Event.startTag t :: rest, in_tu, en_text, fr_text, pairs =>
    if localName t = "tu" then loadLoop max_tu rest true none none pairs
    else loadLoop max_tu rest in_tu en_text fr_text pairs
  | Event.endElem e :: rest, in_tu, en_text, fr_text, pairs =>
    if localName e.tag = "tu" then
      match en_text, fr_text with
      | some en, some fr =>
        if max_tu ≤ pairs.length + 1 then pairs ++ [(en, fr)]
        else loadLoop max_tu rest false (some en) (some fr) (pairs ++ [(en, fr)])
      | _, _ => loadLoop max_tu rest false en_text fr_text pairs
    else if in_tu && localName e.tag = "tuv" then
      if langOf e = "en" then
        loadLoop max_tu rest in_tu (some (get_seg_text e)) fr_text pairs
      else if langOf e = "fr" then
        loadLoop max_tu rest in_tu en_text (some (get_seg_text e)) pairs
      else loadLoop max_tu rest in_tu en_text fr_text pairs
    else loadLoop max_tu rest in_tu en_text fr_text pairs

/-- Subset loader: run the event loop over the document's event stream
from the initial state of the source (no pairs, outside any tu, both
slots unset). -/
def load_tmx_subset_robust (root : Elem) (max_tu : Nat) : List TranslationPair :=
  loadLoop max_tu (eventsOf root) false none none []

/-- The same loop without the cap break: used to define the number of
qualifying records of a document, the pairs a boundless run would
collect. -/
def loadAll :
    List Event → Bool → Option String → Option String →
    List TranslationPair → List TranslationPair
  | [], _, _, _, pairs => pairs
  | Event.startTag t :: rest, in_tu, en_text, fr_text, pairs =>
    if localName t = "tu" then loadAll rest true none none pairs
    else loadAll rest in_tu en_text fr_text pairs
  | Event.endElem e :: rest, in_tu, en_text, fr_text, pairs =>
    if localName e.tag = "tu" then
      match en_text, fr_text with
      | some en, some fr => loadAll rest false (some en) (some fr) (pairs ++ [(en, fr)])
      | _, _ => loadAll rest false en_text fr_text pairs
    else if in_tu && localName e.tag = "tuv" then
      if langOf e = "en" then
        loadAll rest in_tu (some (get_seg_text e)) fr_text pairs
      else if langOf e = "fr" then
        loadAll rest in_tu en_text (some (get_seg_text e)) pairs
      else loadAll rest in_tu en_text fr_text pairs
    else loadAll rest in_tu en_text fr_text pairs

/-- Number of qualifying translation-unit records of a document: the
number of pairs an uncapped run of the loader loop collects. -/
def qualifying (root : Elem) : Nat :=
  (loadAll (eventsOf root) false none none []).length

/-- Slot update performed by the loop for a single event while inside a
tu record: a tuv end event writes the matching language slot, every
other event leaves the slots unchanged. -/
def slotStep (s : Option String × Option String) : Event → Option String × Option String
  | .startTag _ => s
  | .endElem e =>
    if localName e.tag = "tuv" then
      if langOf e = "en" then (some (get_seg_text e), s.2)
      else if langOf e = "fr" then (s.1, some (get_seg_text e))
      else s
    else s

/-- Slot state after a sequence of in-record events. -/
def slotFold (evs : List Event) (s : Option String × Option String) :
    Option String × Option String :=
  evs.foldl slotStep s

example : localName "\x7burn:x\x7dseg" = "seg" := by decide
example : localName "tu" = "tu" := by decide

/-- Word count of a text, Python len of str.split with no arguments. -/
def wordCount (s : String) : Nat := (pySplit s).length

/-- One print statement of the script, with the dynamic values it
interpolates; console formatting is abstracted away. -/
inductive PrintLine : Type where
  | noPairsLoaded : PrintLine
  | bsHeader : PrintLine
  | bsNumPairs : Nat → PrintLine
  | bsEnChars : Rat → Nat → Nat → PrintLine
  | bsFrChars : Rat → Nat → Nat → PrintLine
  | bsEnWords : Rat → PrintLine
  | bsFrWords : Rat → PrintLine
  | lrHeader : PrintLine
  | lrByChar : Rat → PrintLine
  | lrByWord : Rat → PrintLine
  | lrTopHeader : Nat → Nat → PrintLine
  | lrTopRow : Rat → Nat → Nat → String → PrintLine
  | sldHeader : PrintLine
  | sldEnHeader : PrintLine
  | sldFrHeader : PrintLine
  | sldRow : Nat → Nat → Nat → PrintLine
  | vtHeader : PrintLine
  | vtEnTop : List String → PrintLine
  | vtFrTop : List String → PrintLine
  | spHeader : PrintLine
  | spPair : Nat → Nat → String → String → PrintLine
deriving DecidableEq

/-- Structured summary returned by basic_stats on non-empty input. -/
structure BasicStats : Type where
  n_pairs : Nat
  en_char_mean : Rat
  fr_char_mean : Rat
  en_word_mean : Rat
  fr_word_mean : Rat
  en_char_min : Nat
  en_char_max : Nat
  fr_char_min : Nat
  fr_char_max : Nat
deriving DecidableEq

/-- Return value of basic_stats: the empty dict on empty input, else
the stats dict. -/
inductive BasicRet : Type where
  | emptyDict : BasicRet
  | stats : BasicStats → BasicRet
deriving DecidableEq

/-- Return value of length_ratios: Python None on empty input, a
ZeroDivisionError when the mean divides by a zero count, else the
two-mean summary dict. -/
inductive RatioRet : Type where
  | pyNone : RatioRet
  | zeroDivisionError : RatioRet
  | summary : Rat → Rat → RatioRet
deriving DecidableEq

/-- Return value of the analyses that always return Python None. -/
inductive NoneRet : Type where
  | pyNone : NoneRet
deriving DecidableEq

/-- Return value of vocabulary_trends: Python None on empty input, else
the two top lists. -/
inductive VocabRet : Type where
  | pyNone : VocabRet
  | summary : List (String × Nat) → List (String × Nat) → VocabRet
deriving DecidableEq

/-- Python min over a non-empty number list (0 on the empty list, which
the guarded call sites never pass). -/
def listMin : List Nat → Nat
  | [] => 0
  | x :: xs => xs.foldl min x

/-- Python max over a non-empty number list (0 on the empty list, which
the guarded call sites never pass). -/
def listMax : List Nat → Nat
  | [] => 0
  | x :: xs => xs.foldl max x

/-- Basic corpus statistics, lines 76 to 106 of the source: character
and word means, character minima and maxima, plus the printed report. -/
def basic_stats (pairs : List TranslationPair) : List PrintLine × BasicRet :=
  if pairs = [] then ([PrintLine.noPairsLoaded], BasicRet.emptyDict)
  else
    let n := pairs.length
    let en_lens := pairs.map (fun p => pyLen p.1)
    let fr_lens := pairs.map (fun p => pyLen p.2)
    let en_words := pairs.map (fun p => wordCount p.1)
    let fr_words := pairs.map (fun p => wordCount p.2)
    let stats : BasicStats :=
      { n_pairs := n
        en_char_mean := (en_lens.sum : Rat) / (n : Rat)
        fr_char_mean := (fr_lens.sum : Rat) / (n : Rat)
        en_word_mean := (en_words.sum : Rat) / (n : Rat)
        fr_word_mean := (fr_words.sum : Rat) / (n : Rat)
        en_char_min := listMin en_lens
        en_char_max := listMax en_lens
        fr_char_min := listMin fr_lens
        fr_char_max := listMax fr_lens }
    ([PrintLine.bsHeader, PrintLine.bsNumPairs n,
      PrintLine.bsEnChars stats.en_char_mean stats.en_char_min stats.en_char_max,
      PrintLine.bsFrChars stats.fr_char_mean stats.fr_char_min stats.fr_char_max,
      PrintLine.bsEnWords stats.en_word_mean,
      PrintLine.bsFrWords stats.fr_word_mean],
     BasicRet.stats stats)

/-- Character ratio series of length_ratios: fr length over en length
for every pair whose en text has positive character length, in pair
order. -/
def char_ratios (pairs : List TranslationPair) : List Rat :=
  pairs.filterMap (fun p =>
    if 0 < pyLen p.1 then some ((pyLen p.2 : Rat) / (pyLen p.1 : Rat)) else none)

/-- Word ratio series of length_ratios: fr word count over en word
count for every pair whose en text has at least one word, in pair
order. -/
def word_ratios (pairs : List TranslationPair) : List Rat :=
  pairs.filterMap (fun p =>
    if 0 < wordCount p.1 then some ((wordCount p.2 : Rat) / (wordCount p.1 : Rat)) else none)

/-- Stable insertion into a list sorted by descending key: the new
element goes before the first strictly smaller key, after equal keys
already present when scanning stops, and before later equal keys it
passes, matching the stability of Python sorting in descending order. -/
def insertKeyDesc {α β : Type} [LinearOrder β] (key : α → β) (x : α) :
    List α → List α
  | [] => [x]
  | y :: ys => if key y ≤ key x then x :: y :: ys else y :: insertKeyDesc key x ys

/-- Stable sort by descending key, modelling Python sorted with a
reversed or negated key: equal-key elements keep their original order. -/
def sortKeyDesc {α β : Type} [LinearOrder β] (key : α → β) : List α → List α
  | [] => []
  | x :: xs => insertKeyDesc key x (sortKeyDesc key xs)

/-- Length-ratio report, lines 109 to 140 of the source.  The two means
divide by the length n of the character-ratio series; when n is zero
the Python division raises, modelled by the error constructor.  The
extremes table keeps pairs with en length at least 20, sorts them by
descending character ratio, and prints the first top_k with a 60
character preview. -/
def length_ratios (pairs : List TranslationPair) (top_k : Nat) :
    List PrintLine × RatioRet :=
  if pairs = [] then ([], RatioRet.pyNone)
  else
    let ratios_char := char_ratios pairs
    let ratios_word := word_ratios pairs
    let n := ratios_char.length
    if n = 0 then ([], RatioRet.zeroDivisionError)
    else
      let mean_rc := ratios_char.sum / (n : Rat)
      let mean_rw := ratios_word.sum / (n : Rat)
      let with_ratio := (pairs.filter (fun p => 20 ≤ pyLen p.1)).map
        (fun p => (p, (pyLen p.2 : Rat) / (pyLen p.1 : Rat)))
      let ranked := sortKeyDesc (fun x => x.2) with_ratio
      ([PrintLine.lrHeader, PrintLine.lrByChar mean_rc, PrintLine.lrByWord mean_rw,
        PrintLine.lrTopHeader top_k 20]
        ++ (ranked.take top_k).map (fun x =>
              PrintLine.lrTopRow x.2 (pyLen x.1.1) (pyLen x.1.2) (pyTake x.1.1 60)),
       RatioRet.summary mean_rc mean_rw)

/-- Bucket width of the length histogram: the ceiling of the maximum
over the bucket number, floored at 1 (line 151 of the source). -/
def bucketWidth (num_buckets m : Nat) : Nat :=
  max 1 ((m + num_buckets - 1) / num_buckets)

/-- Bucket index of a word count: integer quotient by the width, capped
at the last bucket (lines 157 and 160 of the source). -/
def bucketIdx (width num_buckets w : Nat) : Nat :=
  min (w / width) (num_buckets - 1)

/-- Lower bound of a printed bucket row. -/
def bucketLo (width b : Nat) : Nat := b * width

/-- Upper bound of a printed bucket row: the arithmetic bound except
for the last bucket, which reports the true maximum (lines 167 and 172
of the source). -/
def bucketHi (width num_buckets maxw b : Nat) : Nat :=
  if b < num_buckets - 1 then (b + 1) * width - 1 else maxw

/-- Word counts of the en side of a pair list. -/
def en_word_counts (pairs : List TranslationPair) : List Nat :=
  pairs.map (fun p => wordCount p.1)

/-- Word counts of the fr side of a pair list. -/
def fr_word_counts (pairs : List TranslationPair) : List Nat :=
  pairs.map (fun p => wordCount p.2)

/-- Printed rows of one side of the histogram: for each occupied bucket
index in ascending order, its range and its count, as the loops at
lines 165 to 173 of the source print them. -/
def bucketRows (counts : List Nat) (num_buckets : Nat) : List PrintLine :=
  let m := listMax counts
  let width := bucketWidth num_buckets m
  ((List.range num_buckets).filter
      (fun b => counts.any (fun w => bucketIdx width num_buckets w = b))).map
    (fun b => PrintLine.sldRow (bucketLo width b) (bucketHi width num_buckets m b)
      (counts.countP (fun w => bucketIdx width num_buckets w = b)))

/-- Sentence length distribution, lines 143 to 173 of the source:
bucket the word counts of each side and print the per-bucket ranges and
counts; always returns Python None. -/
def sentence_length_distribution (pairs : List TranslationPair) (num_buckets : Nat) :
    List PrintLine × NoneRet :=
  if pairs = [] then ([], NoneRet.pyNone)
  else
    ([PrintLine.sldHeader, PrintLine.sldEnHeader]
      ++ bucketRows (en_word_counts pairs) num_buckets
      ++ [PrintLine.sldFrHeader]
      ++ bucketRows (fr_word_counts pairs) num_buckets,
     NoneRet.pyNone)

/-- Display string of a sample text: first 200 characters, an ellipsis
appended when the text is longer. -/
def spDisplay (s : String) : String :=
  pyTake s 200 ++ (if 200 < pyLen s then "..." else "")

/-- Sample rows: walk the index list with its position, stopping at the
first index at or past the collection length (the break at line 186 of
the source). -/
def spRows (pairs : List TranslationPair) (n : Nat) : Nat → List Nat → List PrintLine
  | _, [] => []
  | i, idx :: rest =>
    if n ≤ idx then []
    else
      let p := pairs.getD idx ("", "")
      PrintLine.spPair i idx (spDisplay p.1) (spDisplay p.2) :: spRows pairs n (i + 1) rest

/-- Sample display, lines 176 to 192 of the source: evenly strided
indices when none are given, each selected pair printed truncated;
always returns Python None. -/
def sample_pairs (pairs : List TranslationPair) (k : Nat)
    (indices : Option (List Nat)) : List PrintLine × NoneRet :=
  if pairs = [] then ([], NoneRet.pyNone)
  else
    let n := pairs.length
    let idxs := match indices with
      | some l => l
      | none => (List.range k).map (fun i => i * max 1 (n / (k + 1)))
    (PrintLine.spHeader :: spRows pairs n 0 idxs, NoneRet.pyNone)

/-- Word character of the tokenizer: the regex word class, modelled for
the alphanumeric and underscore characters the claims exercise. -/
def isWordChar (c : Char) : Bool := c.isAlphanum || c = '_'

/-- Tokens of a text for vocabulary_trends: lower-case, then the
maximal word-character runs, in order, as the word regex finds them. -/
def pyTokens (s : String) : List String :=
  ((splitChars (fun c => !isWordChar c) (s.toList.map Char.toLower)).map String.mk).filter
    (fun t => t ≠ "")

/-- Record one token in a frequency association list: increment its
count in place when present, else append it with count one.  Key order
is therefore first-encounter order, as in a Python dict. -/
def bumpTok : List (String × Nat) → String → List (String × Nat)
  | [], t => [(t, 1)]
  | (k, v) :: rest, t =>
    if k = t then (k, v + 1) :: rest else (k, v) :: bumpTok rest t

/-- Frequency table of all tokens of a text list, in first-encounter
key order. -/
def tokenFreqs (texts : List String) : List (String × Nat) :=
  (texts.flatMap pyTokens).foldl bumpTok []

/-- English-side token frequencies of a pair list. -/
def en_freq (pairs : List TranslationPair) : List (String × Nat) :=
  tokenFreqs (pairs.map (fun p => p.1))

/-- French-side token frequencies of a pair list. -/
def fr_freq (pairs : List TranslationPair) : List (String × Nat) :=
  tokenFreqs (pairs.map (fun p => p.2))

/-- Vocabulary trends, lines 195 to 215 of the source: per-language
token frequencies, sorted stably by descending count, truncated to
top_n, printed as word lists and returned. -/
def vocabulary_trends (pairs : List TranslationPair) (top_n : Nat) :
    List PrintLine × VocabRet :=
  if pairs = [] then ([], VocabRet.pyNone)
  else
    let en_top := (sortKeyDesc (fun kv => kv.2) (en_freq pairs)).take top_n
    let fr_top := (sortKeyDesc (fun kv => kv.2) (fr_freq pairs)).take top_n
    ([PrintLine.vtHeader, PrintLine.vtEnTop (en_top.map (fun kv => kv.1)),
      PrintLine.vtFrTop (fr_top.map (fun kv => kv.1))],
     VocabRet.summary en_top fr_top)

/-- A seg element with direct text and no children. -/
def segWith (txt : String) : Elem := Elem.mk "seg" [] (some txt) ElemList.nil none

/-- A tuv element with a bare lang attribute and a plain seg child. -/
def tuvOf (lang txt : String) : Elem :=
  Elem.mk "tuv" [("lang", lang)] none (elemsOf [segWith txt]) none

/-- A tu element with the given variants. -/
def tuOf (vs : List Elem) : Elem := Elem.mk "tu" [] none (elemsOf vs) none

/-- A document with the given tu records under a body element. -/
def docOf (tus : List Elem) : Elem :=
  Elem.mk "tmx" [] none (elemsOf [Elem.mk "body" [] none (elemsOf tus) none]) none

/-- Document with one qualifying record. -/
def doc1 : Elem := docOf [tuOf [tuvOf "en" "Hello", tuvOf "fr" "Bonjour"]]

/-- Document whose record has an en variant with no segment at all, so
its extracted text is empty, plus a normal fr variant. -/
def doc2 : Elem :=
  docOf [tuOf [Elem.mk "tuv" [("lang", "en")] none ElemList.nil none, tuvOf "fr" "Bonjour"]]

/-- Document whose record carries two en variants and one fr variant. -/
def doc3 : Elem :=
  docOf [tuOf [tuvOf "en" "first", tuvOf "en" "second", tuvOf "fr" "bon"]]

/-- A tuv whose seg is namespace qualified, carries text, and has no
child elements. -/
def c4_tuv : Elem :=
  Elem.mk "tuv" [("lang", "en")] none
    (elemsOf [Elem.mk "\x7burn:x\x7dseg" [] (some "Hello") ElemList.nil none]) none

example : load_tmx_subset_robust doc1 50 = [("Hello", "Bonjour")] := by decide
example : load_tmx_subset_robust doc1 0 = [("Hello", "Bonjour")] := by decide
example : load_tmx_subset_robust doc2 50 = [("", "Bonjour")] := by decide
example : load_tmx_subset_robust doc3 10 = [("second", "bon")] := by decide
example : get_seg_text c4_tuv = "" := by decide
example : seg_text_of_spec c4_tuv = "Hello" := by decide

example : pySplit "a b" = ["a", "b"] := by decide
example : pySplit "  " = [] := by decide
example : pyTokens "Hello, world! Hello?" = ["hello", "world", "hello"] := by decide
example : tokenFreqs ["Hello, world! Hello?"] = [("hello", 2), ("world", 1)] := by decide

/-- Bucket correctness of one histogram side: the width is at least
one, every word count's bucket index is in range, the bucket of the
maximum covers the maximum within its printed range, and the printed
upper bound of the final bucket index is the true maximum. -/
def bucketSideOk (counts : List Nat) (nb : Nat) : Prop :=
  1 ≤ bucketWidth nb (listMax counts) ∧
  (∀ w ∈ counts, bucketIdx (bucketWidth nb (listMax counts)) nb w ≤ nb - 1) ∧
  bucketLo (bucketWidth nb (listMax counts))
    (bucketIdx (bucketWidth nb (listMax counts)) nb (listMax counts)) ≤ listMax counts ∧
  listMax counts ≤ bucketHi (bucketWidth nb (listMax counts)) nb (listMax counts)
    (bucketIdx (bucketWidth nb (listMax counts)) nb (listMax counts)) ∧
  bucketHi (bucketWidth nb (listMax counts)) nb (listMax counts) (nb - 1) = listMax counts

/-- A source text of exactly twenty whitespace-separated words. -/
def c7_en : String := "w w w w w w w w w w w w w w w w w w w w"

/-- Pair list whose second pair has a source of two space characters:
two characters but zero words, so the character-ratio series has two
entries while the word-ratio series has one. -/
def c6_pairs : List TranslationPair := [("a b", "c d e f"), ("  ", "x")]

/-- An uncapped run never shrinks the accumulated pair list. -/
lemma loadAll_length_le :
    ∀ (evs : List Event) (b : Bool) (en fr : Option String) (ps : List TranslationPair),
      ps.length ≤ (loadAll evs b en fr ps).length := by
  intro evs
  induction evs with
  | nil => intro b en fr ps; simp [loadAll]
  | cons ev rest ih =>
    intro b en fr ps
    cases ev with
    | startTag t =>
      simp only [loadAll]
      split
      · exact ih true none none ps
      · exact ih b en fr ps
    | endElem e =>
      cases en with
      | none =>
        cases fr with
        | none =>
          simp only [loadAll]; split
          · exact ih false none none ps
          · split
            · split
              · exact ih b (some (get_seg_text e)) none ps
              · split
                · exact ih b none (some (get_seg_text e)) ps
                · exact ih b none none ps
            · exact ih b none none ps
        | some fr0 =>
          simp only [loadAll]; split
          · exact ih false none (some fr0) ps
          · split
            · split
              · exact ih b (some (get_seg_text e)) (some fr0) ps
              · split
                · exact ih b none (some (get_seg_text e)) ps
                · exact ih b none (some fr0) ps
            · exact ih b none (some fr0) ps
      | some en0 =>
        cases fr with
        | none =>
          simp only [loadAll]; split
          · exact ih false (some en0) none ps
          · split
            · split
              · exact ih b (some (get_seg_text e)) none ps
              · split
                · exact ih b (some en0) (some (get_seg_text e)) ps
                · exact ih b (some en0) none ps
            · exact ih b (some en0) none ps
        | some fr0 =>
          simp only [loadAll]; split
          · exact le_trans (by simp) (ih false (some en0) (some fr0) (ps ++ [(en0, fr0)]))
          · split
            · split
              · exact ih b (some (get_seg_text e)) (some fr0) ps
              · split
                · exact ih b (some en0) (some (get_seg_text e)) ps
                · exact ih b (some en0) (some fr0) ps
            · exact ih b (some en0) (some fr0) ps

/-- A cap of zero behaves exactly like a cap of one: the break test
only runs after an append, at which point the list is non-empty, so
both caps stop at the first appended pair. -/
lemma load0_eq_load1 :
    ∀ (evs : List Event) (b : Bool) (en fr : Option String) (ps : List TranslationPair),
      loadLoop 0 evs b en fr ps = loadLoop 1 evs b en fr ps := by
  intro evs
  induction evs with
  | nil => intros; rfl
  | cons ev rest ih =>
    intro b en fr ps
    cases ev with
    | startTag t => simp only [loadLoop]; split <;> apply ih
    | endElem e =>
      cases en <;> cases fr <;> simp only [loadLoop] <;> (repeat' split) <;>
        first
        | rfl
        | apply ih
        | omega

/-- While the accumulated list is below the cap, the capped loop
collects the minimum of the cap and the uncapped total. -/
lemma loadLoop_length_min :
    ∀ (evs : List Event) (m : Nat) (b : Bool) (en fr : Option String)
      (ps : List TranslationPair), ps.length < m →
      (loadLoop m evs b en fr ps).length = min m (loadAll evs b en fr ps).length := by
  intro evs
  induction evs with
  | nil =>
    intro m b en fr ps h
    simp only [loadLoop, loadAll]
    omega
  | cons ev rest ih =>
    intro m b en fr ps h
    cases ev with
    | startTag t =>
      simp only [loadLoop, loadAll]
      split
      · exact ih _ _ _ _ _ h
      · exact ih _ _ _ _ _ h
    | endElem e =>
      cases en with
      | none =>
        simp only [loadLoop, loadAll]
        cases fr <;> (repeat' split) <;> exact ih _ _ _ _ _ h
      | some en0 =>
        cases fr with
        | none =>
          simp only [loadLoop, loadAll]
          (repeat' split) <;> exact ih _ _ _ _ _ h
        | some fr0 =>
          simp only [loadLoop, loadAll]
          split
          · split
            · rename_i hc
              have h1 := loadAll_length_le rest false (some en0) (some fr0) (ps ++ [(en0, fr0)])
              simp only [List.length_append, List.length_cons, List.length_nil] at h1 ⊢
              omega
            · rename_i hc
              refine ih _ _ _ _ _ ?_
              simp only [List.length_append, List.length_cons, List.length_nil]
              omega
          · (repeat' split) <;> exact ih _ _ _ _ _ h

/-- While inside a tu record, events that are not tu boundaries leave
the pair list untouched and only update the language slots, exactly as
slotStep describes. -/
lemma loadLoop_inside_tu :
    ∀ (inner : List Event), (∀ ev ∈ inner, evLocal ev ≠ "tu") →
      ∀ (m : Nat) (rest : List Event) (en fr : Option String)
        (ps : List TranslationPair),
        loadLoop m (inner ++ rest) true en fr ps =
          loadLoop m rest true (slotFold inner (en, fr)).1
            (slotFold inner (en, fr)).2 ps := by
  intro inner
  induction inner with
  | nil => intro _ m rest en fr ps; simp [slotFold]
  | cons ev tl ih =>
    intro hno m rest en fr ps
    have hev : evLocal ev ≠ "tu" := hno ev (by simp)
    have htl : ∀ e ∈ tl, evLocal e ≠ "tu" := fun e he => hno e (by simp [he])
    cases ev with
    | startTag t =>
      have ht : ¬ localName t = "tu" := hev
      simp only [List.cons_append, loadLoop, slotFold, List.foldl_cons]
      rw [if_neg ht]
      exact ih htl m rest en fr ps
    | endElem e =>
      have he : ¬ localName e.tag = "tu" := hev
      simp only [List.cons_append, loadLoop, slotFold, List.foldl_cons]
      rw [if_neg he]
      by_cases htuv : localName e.tag = "tuv"
      · by_cases hen : langOf e = "en"
        · simp [slotStep, htuv, hen]
          exact ih htl m rest (some (get_seg_text e)) fr ps
        · by_cases hfr : langOf e = "fr"
          · simp [slotStep, htuv, hen, hfr]
            exact ih htl m rest en (some (get_seg_text e)) ps
          · simp [slotStep, htuv, hen, hfr]
            exact ih htl m rest en fr ps
      · simp [slotStep, htuv]
        exact ih htl m rest en fr ps

/-- Membership in a stable descending insertion. -/
lemma mem_insertKeyDesc {α β : Type} [LinearOrder β] (key : α → β) (x z : α) :
    ∀ l : List α, z ∈ insertKeyDesc key x l → z = x ∨ z ∈ l := by
  intro l
  induction l with
  | nil =>
    intro h
    simp [insertKeyDesc] at h
    exact Or.inl h
  | cons y ys ih =>
    intro h
    by_cases hc : key y ≤ key x
    · rw [insertKeyDesc, if_pos hc] at h
      simpa using h
    · rw [insertKeyDesc, if_neg hc] at h
      rcases List.mem_cons.mp h with rfl | h2
      · exact Or.inr (List.mem_cons_self _ _)
      · rcases ih h2 with rfl | h3
        · exact Or.inl rfl
        · exact Or.inr (List.mem_cons_of_mem _ h3)

/-- Stable descending insertion preserves the descending-key pairwise
order. -/
lemma pairwise_insertKeyDesc {α β : Type} [LinearOrder β] (key : α → β) (x : α) :
    ∀ l : List α, l.Pairwise (fun a b => key b ≤ key a) →
      (insertKeyDesc key x l).Pairwise (fun a b => key b ≤ key a) := by
  intro l
  induction l with
  | nil => intro _; simp [insertKeyDesc]
  | cons y ys ih =>
    intro hp
    rcases List.pairwise_cons.mp hp with ⟨hy, hys⟩
    by_cases hc : key y ≤ key x
    · rw [insertKeyDesc, if_pos hc]
      refine List.pairwise_cons.mpr ⟨?_, hp⟩
      intro z hz
      rcases List.mem_cons.mp hz with rfl | hz2
      · exact hc
      · exact le_trans (hy z hz2) hc
    · rw [insertKeyDesc, if_neg hc]
      refine List.pairwise_cons.mpr ⟨?_, ih hys⟩
      intro z hz
      rcases mem_insertKeyDesc key x z ys hz with rfl | hz2
      · exact le_of_lt (lt_of_not_le hc)
      · exact hy z hz2

/-- The stable descending sort produces a list sorted by descending
key. -/
lemma pairwise_sortKeyDesc {α β : Type} [LinearOrder β] (key : α → β) :
    ∀ l : List α, (sortKeyDesc key l).Pairwise (fun a b => key b ≤ key a) := by
  intro l
  induction l with
  | nil => simp [sortKeyDesc]
  | cons x xs ih => exact pairwise_insertKeyDesc key x _ ih

/-- Filtering an insertion at a fixed key value: the inserted element
lands in front of the equal-key block it belongs to, every other
equal-key sublist is untouched. -/
lemma insertKeyDesc_filter {α β : Type} [LinearOrder β] (key : α → β) (x : α) (c : β) :
    ∀ l : List α,
      (insertKeyDesc key x l).filter (fun z => key z = c) =
        if key x = c then x :: l.filter (fun z => key z = c)
        else l.filter (fun z => key z = c) := by
  intro l
  induction l with
  | nil =>
    by_cases hx : key x = c <;> simp [insertKeyDesc, List.filter_cons, hx]
  | cons y ys ih =>
    by_cases hc : key y ≤ key x
    · rw [insertKeyDesc, if_pos hc]
      by_cases hx : key x = c <;> simp [List.filter_cons, hx]
    · rw [insertKeyDesc, if_neg hc]
      have hxy : key x < key y := lt_of_not_le hc
      by_cases hy : key y = c
      · have hx : ¬ key x = c := by
          intro hx
          exact absurd (hx.trans hy.symm) (ne_of_lt hxy)
        simp [List.filter_cons, hy, hx, ih]
      · by_cases hx : key x = c <;> simp [List.filter_cons, hy, hx, ih]

/-- Stability of the descending sort: the sublist at any fixed key
value is exactly the original sublist at that value, so equal-key
elements keep their first-encounter order. -/
lemma sortKeyDesc_filter {α β : Type} [LinearOrder β] (key : α → β) (c : β) :
    ∀ l : List α,
      (sortKeyDesc key l).filter (fun z => key z = c) =
        l.filter (fun z => key z = c) := by
  intro l
  induction l with
  | nil => simp [sortKeyDesc]
  | cons x xs ih =>
    rw [sortKeyDesc, insertKeyDesc_filter]
    by_cases hx : key x = c <;> simp [List.filter_cons, hx, ih]

/-- The bucket of the maximum word count covers the maximum: its lower
bound is at most the maximum and the maximum is at most its printed
upper bound. -/
lemma bucket_contains_max (nb m : Nat) :
    bucketLo (bucketWidth nb m) (bucketIdx (bucketWidth nb m) nb m) ≤ m ∧
    m ≤ bucketHi (bucketWidth nb m) nb m (bucketIdx (bucketWidth nb m) nb m) := by
  have hw1 : 1 ≤ bucketWidth nb m := Nat.le_max_left 1 _
  constructor
  · calc bucketIdx (bucketWidth nb m) nb m * bucketWidth nb m
        ≤ (m / bucketWidth nb m) * bucketWidth nb m :=
          Nat.mul_le_mul_right _ (Nat.min_le_left _ _)
      _ ≤ m := Nat.div_mul_le_self _ _
  · unfold bucketHi
    by_cases hb : bucketIdx (bucketWidth nb m) nb m < nb - 1
    · rw [if_pos hb]
      have hbm : bucketIdx (bucketWidth nb m) nb m = m / bucketWidth nb m := by
        unfold bucketIdx at hb ⊢
        omega
      rw [hbm]
      have hdm := Nat.div_add_mod m (bucketWidth nb m)
      have hmod : m % bucketWidth nb m < bucketWidth nb m := Nat.mod_lt _ (by omega)
      have hexp : (m / bucketWidth nb m + 1) * bucketWidth nb m
          = bucketWidth nb m * (m / bucketWidth nb m) + bucketWidth nb m := by ring
      rw [hexp]
      omega
    · rw [if_neg hb]

/-- With ten buckets the width is one exactly when the maximum word
count is at most ten. -/
lemma bucketWidth_eq_one_iff (m : Nat) : bucketWidth 10 m = 1 ↔ m ≤ 10 := by
  unfold bucketWidth
  omega

/-- Every histogram side satisfies the bucket correctness predicate. -/
lemma bucketSideOk_always (counts : List Nat) (nb : Nat) : bucketSideOk counts nb := by
  refine ⟨Nat.le_max_left 1 _, ?_, (bucket_contains_max nb _).1,
    (bucket_contains_max nb _).2, ?_⟩
  · intro w _
    exact Nat.min_le_right _ _
  · unfold bucketHi
    simp

/-- C1, counterexample: on a document with one qualifying record a cap
of zero still loads one pair, because the cap test runs only after an
append; the claim says a cap of zero yields zero pairs and that the
length never exceeds the cap. -/
theorem c1_cap_zero_counterexample : (load_tmx_subset_robust doc1 0).length = 1 := by
  decide

/-- C1, amended: the loaded length is the minimum of the effective cap
and the number of qualifying records, where the effective cap is the
cap itself when it is at least one and one when the cap is zero (the
break test runs only after an append, so a first qualifying record is
always loaded). -/
theorem c1_load_length_min_cap_qualifying (root : Elem) (cap : Nat) :
    (load_tmx_subset_robust root cap).length = min (max cap 1) (qualifying root) := by
  unfold load_tmx_subset_robust qualifying
  rcases Nat.eq_zero_or_pos cap with h0 | hpos
  · subst h0
    rw [load0_eq_load1, loadLoop_length_min (eventsOf root) 1 false none none [] (by simp)]
    rfl
  · have hmax : max cap 1 = cap := by omega
    rw [hmax, loadLoop_length_min (eventsOf root) cap false none none [] (by simpa using hpos)]

/-- C2, counterexample: a record whose en variant has no segment at all
still produces a pair, with an empty source text, because the empty
extracted string is not None; the claim says both texts of every
appended pair are non-empty. -/
theorem c2_empty_text_counterexample :
    load_tmx_subset_robust doc2 50 = [("", "Bonjour")] := by decide

/-- C2, amended: a pair is appended for a translation-unit record if
and only if texts for both tracked languages were assigned inside that
record before it closed; the texts are stored exactly as extracted and
may be empty.  Formally, processing one whole record from any state
appends the pair exactly when both slots computed by the in-record
fold are set, and otherwise leaves the pair list unchanged. -/
theorem c2_pair_appended_iff_both_slots
    (m : Nat) (t : String) (inner : List Event) (e : Elem) (rest : List Event)
    (b0 : Bool) (en0 fr0 : Option String) (ps : List TranslationPair)
    (ht : localName t = "tu")
    (hin : ∀ ev ∈ inner, evLocal ev ≠ "tu")
    (he : localName e.tag = "tu") :
    loadLoop m (Event.startTag t :: (inner ++ Event.endElem e :: rest)) b0 en0 fr0 ps =
      match slotFold inner (none, none) with
      | (some en, some fr) =>
        if m ≤ ps.length + 1 then ps ++ [(en, fr)]
        else loadLoop m rest false (some en) (some fr) (ps ++ [(en, fr)])
      | s => loadLoop m rest false s.1 s.2 ps := by
  have h1 : loadLoop m (Event.startTag t :: (inner ++ Event.endElem e :: rest)) b0 en0 fr0 ps
      = loadLoop m (inner ++ Event.endElem e :: rest) true none none ps := by
    simp only [loadLoop]
    rw [if_pos ht]
  rw [h1, loadLoop_inside_tu inner hin]
  rcases hs : slotFold inner (none, none) with ⟨en1, fr1⟩
  cases en1 <;> cases fr1 <;> simp [loadLoop, he]

/-- C2, witness: the amended record theorem applied to a concrete
record with both variants present, a cap of one, and an empty prior
state. -/
theorem c2_pair_appended_iff_both_slots_witness :
    loadLoop 1 (Event.startTag "tu" ::
      ([Event.endElem (tuvOf "en" "Hello"), Event.endElem (tuvOf "fr" "Bonjour")]
        ++ Event.endElem (tuOf []) :: [])) false none none [] = [("Hello", "Bonjour")] := by
  rw [c2_pair_appended_iff_both_slots 1 "tu"
    [Event.endElem (tuvOf "en" "Hello"), Event.endElem (tuvOf "fr" "Bonjour")]
    (tuOf []) [] false none none [] (by decide) (by decide) (by decide)]
  decide

/-- C3, counterexample: a record with two en variants loads the second
variant's text, not the first; the claim says the first is kept and
later duplicates leave the slot unchanged. -/
theorem c3_last_variant_counterexample :
    load_tmx_subset_robust doc3 10 = [("second", "bon")] ∧
    load_tmx_subset_robust doc3 10 ≠ [("first", "bon")] := by decide

/-- C3, amended: within a record, a later variant for a tracked
language overwrites that language's slot unconditionally, so the last
variant for a language wins; the slot for the other language is
untouched. -/
theorem c3_duplicate_variant_overwrites
    (evs : List Event) (e : Elem) (s : Option String × Option String)
    (htuv : localName e.tag = "tuv") :
    (langOf e = "en" →
      slotFold (evs ++ [Event.endElem e]) s = (some (get_seg_text e), (slotFold evs s).2)) ∧
    (langOf e = "fr" →
      slotFold (evs ++ [Event.endElem e]) s = ((slotFold evs s).1, some (get_seg_text e))) := by
  constructor <;> intro hl <;>
    simp [slotFold, List.foldl_append, slotStep, htuv, hl]

/-- C3, witness: the overwrite theorem applied to a record holding an
en variant reading first followed by one reading second. -/
theorem c3_duplicate_variant_overwrites_witness :
    slotFold ([Event.endElem (tuvOf "en" "first")] ++ [Event.endElem (tuvOf "en" "second")])
      (none, none) = (some (get_seg_text (tuvOf "en" "second")), none) := by
  have h := (c3_duplicate_variant_overwrites [Event.endElem (tuvOf "en" "first")]
    (tuvOf "en" "second") (none, none) (by decide)).1 (by decide)
  rw [h]
  decide

/-- C4: a namespace-qualified seg with text and no child elements is
lost: the extractor returns the empty string although a segment node
with text exists, while the spec-worded extractor returns its text.
The Python or between the two find calls tests Element truthiness,
which is length based, so the childless namespaced segment falls
through to a namespace-less direct-child lookup that fails. -/
theorem c4_namespaced_childless_seg_lost :
    get_seg_text c4_tuv = "" ∧ seg_text_of_spec c4_tuv = "Hello" := by decide

/-- C5, counterexample: on the empty collection length_ratios prints
nothing and returns Python None, so no no-data notice is printed and no
empty summary dict is returned, contrary to the claim. -/
theorem c5_silent_none_counterexample :
    length_ratios ([] : List TranslationPair) 10 = ([], RatioRet.pyNone) := by decide

/-- C5, amended: on the empty collection none of the five analyses
raises; basic_stats prints its no-pairs notice and returns the empty
dict, while the other four return Python None immediately and print
nothing. -/
theorem c5_empty_collection_behavior (top_k nb top_n k : Nat) (idx : Option (List Nat)) :
    basic_stats [] = ([PrintLine.noPairsLoaded], BasicRet.emptyDict) ∧
    length_ratios [] top_k = ([], RatioRet.pyNone) ∧
    sentence_length_distribution [] nb = ([], NoneRet.pyNone) ∧
    vocabulary_trends [] top_n = ([], VocabRet.pyNone) ∧
    sample_pairs [] k idx = ([], NoneRet.pyNone) :=
  ⟨rfl, rfl, rfl, rfl, rfl⟩

/-- C6: the reported word-ratio mean divides the word-ratio sum by the
length of the character-ratio series, not of the word-ratio series.  On
a list whose second pair has a two-space source (two characters, zero
words) the word-ratio series is the single value two, whose true mean
is two, yet the function reports one. -/
theorem c6_mean_word_ratio_wrong_denominator :
    length_ratios c6_pairs 10 =
      ([PrintLine.lrHeader, PrintLine.lrByChar ((17 : Rat) / 12), PrintLine.lrByWord 1,
        PrintLine.lrTopHeader 10 20], RatioRet.summary ((17 : Rat) / 12) 1) ∧
    word_ratios c6_pairs = [2] ∧
    (word_ratios c6_pairs).sum / ((word_ratios c6_pairs).length : Rat) = 2 ∧
    (1 : Rat) ≠ 2 := by
  have hw1 : wordCount "a b" = 2 := by decide
  have hw2 : wordCount "c d e f" = 4 := by decide
  have hw3 : wordCount "  " = 0 := by decide
  have hw4 : wordCount "x" = 1 := by decide
  have hl1 : pyLen "a b" = 3 := by decide
  have hl2 : pyLen "c d e f" = 7 := by decide
  have hl3 : pyLen "  " = 2 := by decide
  have hl4 : pyLen "x" = 1 := by decide
  have hw : word_ratios c6_pairs = [2] := by
    simp [word_ratios, c6_pairs, hw1, hw2, hw3, hw4]
    norm_num
  have hc : char_ratios c6_pairs = [7 / 3, 1 / 2] := by
    simp [char_ratios, c6_pairs, hl1, hl2, hl3, hl4]
  have hfilter : c6_pairs.filter (fun p => 20 ≤ pyLen p.1) = [] := by
    simp [c6_pairs, hl1, hl3]
  refine ⟨?_, hw, ?_, by norm_num⟩
  · simp only [length_ratios]
    rw [if_neg (show ¬ c6_pairs = [] by decide)]
    simp only [hc, hw, hfilter]
    norm_num [sortKeyDesc]
  · rw [hw]
    norm_num

/-- C7, counterexample: with all word counts equal to twenty and ten
buckets the width is two, not one; the claim's parenthetical says the
width floors to one whenever all word counts are equal. -/
theorem c7_equal_counts_width_counterexample :
    (∀ w ∈ en_word_counts [(c7_en, "x")], w = 20) ∧
    bucketWidth 10 (listMax (en_word_counts [(c7_en, "x")])) = 2 ∧
    ¬ bucketWidth 10 (listMax (en_word_counts [(c7_en, "x")])) = 1 := by decide

/-- C7, amended: for every non-empty pair list and ten buckets, on each
side the width is at least one, every bucket index is in range, the
bucket of the maximum covers the maximum, the final bucket's printed
upper bound is the true maximum, and the width is one exactly when the
side's maximum word count is at most ten (so equal word counts give
width one precisely when the common count is at most ten). -/
theorem c7_bucket_assignment (pairs : List TranslationPair) (h : pairs ≠ []) :
    bucketSideOk (en_word_counts pairs) 10 ∧ bucketSideOk (fr_word_counts pairs) 10 ∧
    (bucketWidth 10 (listMax (en_word_counts pairs)) = 1 ↔
      listMax (en_word_counts pairs) ≤ 10) ∧
    (bucketWidth 10 (listMax (fr_word_counts pairs)) = 1 ↔
      listMax (fr_word_counts pairs) ≤ 10) :=
  ⟨bucketSideOk_always _ _, bucketSideOk_always _ _,
    bucketWidth_eq_one_iff _, bucketWidth_eq_one_iff _⟩

/-- C7, witness: the bucket theorem applied to a concrete one-pair
list. -/
theorem c7_bucket_assignment_witness :
    ([("a b", "c")] : List TranslationPair) ≠ [] ∧
    (bucketSideOk (en_word_counts [("a b", "c")]) 10 ∧
      bucketSideOk (fr_word_counts [("a b", "c")]) 10 ∧
      (bucketWidth 10 (listMax (en_word_counts [("a b", "c")])) = 1 ↔
        listMax (en_word_counts [("a b", "c")]) ≤ 10) ∧
      (bucketWidth 10 (listMax (fr_word_counts [("a b", "c")])) = 1 ↔
        listMax (fr_word_counts [("a b", "c")]) ≤ 10)) :=
  ⟨by decide, c7_bucket_assignment [("a b", "c")] (by decide)⟩

/-- C8: tokens are counted after lower-casing on maximal word-character
runs, so the mixed-case punctuated example yields hello with frequency
two; and every returned top list is the front of the stable descending
sort of the first-encounter frequency table: it is sorted by
descending frequency, and at every fixed frequency the sorted table
preserves the first-encounter order exactly. -/
theorem c8_vocab_tokens_and_stable_order :
    ((vocabulary_trends [("Hello, world! Hello?", "Bonjour !")] 20).2 =
      VocabRet.summary [("hello", 2), ("world", 1)] [("bonjour", 1)]) ∧
    (∀ (pairs : List TranslationPair) (top_n : Nat) (et ft : List (String × Nat)),
      (vocabulary_trends pairs top_n).2 = VocabRet.summary et ft →
      et = (sortKeyDesc (fun kv => kv.2) (en_freq pairs)).take top_n ∧
      ft = (sortKeyDesc (fun kv => kv.2) (fr_freq pairs)).take top_n ∧
      et.Pairwise (fun a b => b.2 ≤ a.2) ∧
      ft.Pairwise (fun a b => b.2 ≤ a.2) ∧
      (∀ c : Nat, (sortKeyDesc (fun kv => kv.2) (en_freq pairs)).filter
          (fun kv => kv.2 = c) = (en_freq pairs).filter (fun kv => kv.2 = c)) ∧
      (∀ c : Nat, (sortKeyDesc (fun kv => kv.2) (fr_freq pairs)).filter
          (fun kv => kv.2 = c) = (fr_freq pairs).filter (fun kv => kv.2 = c))) := by
  constructor
  · decide
  · intro pairs top_n et ft hsum
    by_cases hp : pairs = []
    · simp [vocabulary_trends, hp] at hsum
    · simp only [vocabulary_trends, if_neg hp] at hsum
      injection hsum with h1 h2
      refine ⟨h1.symm, h2.symm, ?_, ?_, fun c => sortKeyDesc_filter _ c _,
        fun c => sortKeyDesc_filter _ c _⟩
      · rw [h1.symm]
        exact (pairwise_sortKeyDesc _ _).sublist (List.take_sublist _ _)
      · rw [h2.symm]
        exact (pairwise_sortKeyDesc _ _).sublist (List.take_sublist _ _)

/-- C8, witness: the ordering part of the vocabulary theorem applied to
the concrete example, whose hypothesis is discharged by the concrete
part of the theorem itself. -/
theorem c8_vocab_tokens_and_stable_order_witness :
    ([("hello", 2), ("world", 1)] : List (String × Nat)).Pairwise
      (fun a b => b.2 ≤ a.2) :=
  (c8_vocab_tokens_and_stable_order.2 [("Hello, world! Hello?", "Bonjour !")] 20
    [("hello", 2), ("world", 1)] [("bonjour", 1)]
    c8_vocab_tokens_and_stable_order.1).2.2.1

/-- C10: on every non-empty pair list whose source texts are all empty,
both ratio series are empty and the mean computation divides by the
zero length of the character-ratio series, so length_ratios raises a
ZeroDivisionError before printing anything. -/
theorem c10_all_empty_sources_zero_division
    (pairs : List TranslationPair) (top_k : Nat)
    (hne : pairs ≠ []) (hempty : ∀ p ∈ pairs, p.1 = "") :
    length_ratios pairs top_k = ([], RatioRet.zeroDivisionError) := by
  have hc : char_ratios pairs = [] := by
    unfold char_ratios
    rw [List.filterMap_eq_nil_iff]
    intro p hp
    rw [hempty p hp]
    simp [pyLen]
  unfold length_ratios
  rw [if_neg hne]
  simp [hc]

/-- C10, witness: the zero-division theorem applied to the concrete
one-pair list with an empty source text. -/
theorem c10_all_empty_sources_zero_division_witness :
    length_ratios [("", "x")] 10 = ([], RatioRet.zeroDivisionError) :=
  c10_all_empty_sources_zero_division [("", "x")] 10 (by decide) (by decide)
